import Mathlib

/-!
# Verification of the S3 storage-inventory scripts

Shallow embedding of `src/s3/all_details_bucket.py` (and the row-building
part of `src/s3/lifecycle_rules.py`).  Python dictionaries are modelled as
association lists in insertion order, exactly mirroring `defaultdict`
behaviour: an update finds the first entry with the given key and modifies
it in place, or appends a fresh entry built from the default value.
Python `dict` equality (key set + values, order-irrelevant) is expressed
through the lookup functions `dictFind` / `pdFind`.
-/

namespace S3Script

/-- An object record as consumed by `calculate_storage_class_data`:
`obj['Key']`, `obj['Size']`, and the optional `obj['StorageClass']`
(absent keys modelled by `none`; the code defaults to `"STANDARD"`). -/
structure S3Object where
  Key : String
  Size : Int
  StorageClass : Option String
deriving DecidableEq, Repr

/-- `obj.get('StorageClass', 'STANDARD')`. -/
def storageClassOf (o : S3Object) : String := o.StorageClass.getD "STANDARD"

/-- A Python `dict`/`defaultdict(int)` mapping storage-class names to byte
counts, as an insertion-ordered association list. -/
abbrev Dict := List (Prod String Int)

/-- Dictionary lookup: `d[k]` when present (`k in d`), `none` otherwise. -/
def dictFind : Dict → String → Option Int
  | [], _ => none
  | (k, v) :: rest, c => if k = c then some v else dictFind rest c

/-- `d[k] += v` on a `defaultdict(int)`: update the entry in place when the
key is present, otherwise append the key with initial value `0 + v`. -/
def dictIncr : Dict → String → Int → Dict
  | [], k, v => [(k, v)]
  | (k', v') :: rest, k, v =>
      if k' = k then (k', v' + v) :: rest else (k', v') :: dictIncr rest k v

/-- The key list of a dictionary (insertion order). -/
def dictKeys (d : Dict) : List String := d.map Prod.fst

/-- `sum(d.values())`. -/
def dictSum (d : Dict) : Int := (d.map Prod.snd).sum

/-- Lookup with default `0` (the value a `defaultdict(int)` would expose). -/
def dictGet0 (d : Dict) (k : String) : Int := (dictFind d k).getD 0

/-- The per-prefix record `{'TotalSize': 0, 'StorageClass': defaultdict(int)}`. -/
structure PrefixDetail where
  TotalSize : Int
  StorageClass : Dict
deriving DecidableEq

/-- The default value produced by the `defaultdict` factory
`lambda: {'TotalSize': 0, 'StorageClass': defaultdict(int)}`. -/
def pdDefault : PrefixDetail := { TotalSize := 0, StorageClass := [] }

/-- The `prefix_details` dictionary: prefix → `PrefixDetail`. -/
abbrev PrefixDict := List (Prod String PrefixDetail)

/-- Lookup in a `PrefixDict`. -/
def pdFind : PrefixDict → String → Option PrefixDetail
  | [], _ => none
  | (k, e) :: rest, c => if k = c then some e else pdFind rest c

/-- Mutation of `prefix_details[k]` on the `defaultdict`: apply `f` to the
entry in place when present, else append `f` applied to the default. -/
def pdUpdate : PrefixDict → String → (PrefixDetail → PrefixDetail) → PrefixDict
  | [], k, f => [(k, f pdDefault)]
  | (k', e) :: rest, k, f =>
      if k' = k then (k', f e) :: rest else (k', e) :: pdUpdate rest k f

/-- The key list of a `PrefixDict` (insertion order). -/
def pdKeys (d : PrefixDict) : List String := d.map Prod.fst

/-- Python `s.split('/')` on a character list: splits at every separator
occurrence, keeping empty segments (so `""` yields `[""]`, `"a//b"` yields
`["a", "", "b"]`), exactly the semantics of `str.split` with an explicit
one-character separator (and of `String.splitOn`). -/
def splitOnChar (sep : Char) : List Char → List (List Char)
  | [] => [[]]
  | c :: rest =>
      match splitOnChar sep rest with
      | [] => [[]]
      | h :: t => if c = sep then [] :: h :: t else (c :: h) :: t

/-- Python `'/'.join(segments)` on character lists. -/
def joinSlash : List (List Char) → List Char
  | [] => []
  | [x] => x
  | x :: xs => x ++ '/' :: joinSlash xs

/-- `'/'.join(obj['Key'].split('/')[:-1]) + '/'` — the prefix computation
inside `calculate_storage_class_data` (line 121 of the source). -/
def prefixOfKey (key : String) : String :=
  String.mk (joinSlash ((splitOnChar '/' key.toList).dropLast) ++ ['/'])

/-- One iteration of the loop body of `calculate_storage_class_data`. -/
def cssdStep (st : Prod Dict PrefixDict) (obj : S3Object) : Prod Dict PrefixDict :=
  let storage_class := obj.StorageClass.getD "STANDARD"
  let size := obj.Size
  let g := dictIncr st.1 storage_class size
  let prefix_path := prefixOfKey obj.Key
  let pd := pdUpdate st.2 prefix_path
      (fun d => { d with TotalSize := d.TotalSize + size })
  let pd := pdUpdate pd prefix_path
      (fun d => { d with StorageClass := dictIncr d.StorageClass storage_class size })
  (g, pd)

/-- `calculate_storage_class_data(objects)` (source lines 112-125): fold the
loop body over the object list starting from empty defaultdicts, returning
`(storage_class_data, prefix_details)`. -/
def calculate_storage_class_data (objects : List S3Object) : Prod Dict PrefixDict :=
  objects.foldl cssdStep ([], [])

/-! ## Lifecycle rules -/

/-- The `And` component of a lifecycle rule filter; only its optional
`Prefix` member is consulted by the code (tag conditions are ignored and
hence not modelled). -/
structure AndFilter where
  AndPfx : Option String
deriving DecidableEq, Repr

/-- A lifecycle rule `Filter` object with its optional simple `Prefix`
member and optional composite `And` member. -/
structure LCFilter where
  Pfx : Option String
  AndF : Option AndFilter
deriving DecidableEq, Repr

/-- One transition entry `{Days, StorageClass}` (either key may be absent). -/
structure LCTransition where
  Days : Option Int
  StorageClass : Option String
deriving DecidableEq, Repr

/-- The `Expiration` member of a rule. -/
structure LCExpiration where
  Days : Option Int
  ExpiredObjectDeleteMarker : Option Bool
deriving DecidableEq, Repr

/-- The `NoncurrentVersionExpiration` member of a rule
(used by `lifecycle_rules.py`). -/
structure LCNoncurrent where
  NoncurrentDays : Option Int
deriving DecidableEq, Repr

/-- A lifecycle rule as the scripts consume it: every member optional,
mirroring Python `in` / `.get` key tests. -/
structure LCRule where
  ID : Option String
  Filter : Option LCFilter
  Status : Option String
  Transitions : Option (List LCTransition)
  Expiration : Option LCExpiration
  NoncurrentVersionExpiration : Option LCNoncurrent
deriving DecidableEq, Repr

/-- The per-rule test of `get_lifecycle_for_prefix`:
`if 'Filter' in policy:` then append when
`'Prefix' in filter and prefix.startswith(filter['Prefix'])`, or (elif)
`'And' in filter and 'Prefix' in filter['And'] and
prefix.startswith(filter['And']['Prefix'])`; with no `Filter` key the rule
is appended unconditionally. -/
def ruleMatches (p : String) (rule : LCRule) : Bool :=
  match rule.Filter with
  | some f =>
      (match f.Pfx with
       | some fp => fp.toList.isPrefixOf p.toList
       | none => false) ||
      (match f.AndF with
       | some a =>
           match a.AndPfx with
           | some ap => ap.toList.isPrefixOf p.toList
           | none => false
       | none => false)
  | none => true

/-- `get_lifecycle_for_prefix(prefix, lifecycle_policies)` (source lines
172-184): walk the rules in order, appending each rule that passes the
filter test, which is exactly `List.filter`. -/
def get_lifecycle_for_prefix (p : String) (lifecycle_policies : List LCRule) : List LCRule :=
  lifecycle_policies.filter (ruleMatches p)

/-! ## Cost calculation

Python floats are idealised as exact rationals; `round(x, 2)` is Python's
banker's rounding (round half to even) on the idealised value. -/

/-- A Python dict with (idealised float) rational values. -/
abbrev QDict := List (Prod String ℚ)

/-- Lookup in a rational-valued dict. -/
def qdictFind : QDict → String → Option ℚ
  | [], _ => none
  | (k, v) :: rest, c => if k = c then some v else qdictFind rest c

/-- Python `d[k] = v`: overwrite the first matching entry, else append. -/
def qdictSet : QDict → String → ℚ → QDict
  | [], k, v => [(k, v)]
  | (k', v') :: rest, k, v =>
      if k' = k then (k', v) :: rest else (k', v') :: qdictSet rest k v

/-- `STORAGE_CLASS_PRICING` (source lines 9-16): USD per GB per month. -/
def STORAGE_CLASS_PRICING : QDict :=
  [("STANDARD", 23/1000),
   ("INTELLIGENT_TIERING", 23/1000),
   ("STANDARD_IA", 125/10000),
   ("ONEZONE_IA", 1/100),
   ("GLACIER", 4/1000),
   ("DEEP_ARCHIVE", 99/100000)]

/-- Python `round` to an integer: nearest, ties to even. -/
def roundHalfEven (q : ℚ) : ℤ :=
  let f := ⌊q⌋
  let r := q - f
  if r < 1/2 then f
  else if 1/2 < r then f + 1
  else if f % 2 = 0 then f else f + 1

/-- Python `round(x, 2)`. -/
def round2 (q : ℚ) : ℚ := (roundHalfEven (q * 100) : ℚ) / 100

/-- One iteration of the loop of `calculate_cost`:
`cost_per_gb = STORAGE_CLASS_PRICING.get(storage_class, 0)`,
`cost = cost_per_gb * (size / 1024**3)`,
`storage_class_cost[storage_class] = round(cost, 2)`. -/
def costStep (out : QDict) (kv : Prod String Int) : QDict :=
  let cost_per_gb := (qdictFind STORAGE_CLASS_PRICING kv.1).getD 0
  let cost := cost_per_gb * ((kv.2 : ℚ) / 1024 ^ 3)
  qdictSet out kv.1 (round2 cost)

/-- `calculate_cost(storage_class_data)` (source lines 127-133): fold the
loop over the items of the input dict, starting from an empty dict. -/
def calculate_cost (storage_class_data : Dict) : QDict :=
  storage_class_data.foldl costStep []

/-! ## The merge loops of `main` (source lines 227-240) -/

/-- `for storage_class, size in storage_class_data.items():
total_storage_class_data[storage_class] += size` (lines 234-235). -/
def mergeGlobal (total : Dict) (storage_class_data : Dict) : Dict :=
  storage_class_data.foldl (fun a kv => dictIncr a kv.1 kv.2) total

/-- The inner loop of lines 239-240: for each storage class of one batch
entry, `all_prefix_details[prefix]['StorageClass'][storage_class] += size`. -/
def mergeClasses (all_details : PrefixDict) (p : String) (classes : Dict) : PrefixDict :=
  classes.foldl
    (fun a cv =>
      pdUpdate a p (fun d => { d with StorageClass := dictIncr d.StorageClass cv.1 cv.2 }))
    all_details

/-- The per-prefix merge loop of lines 237-240. -/
def mergePrefixes (all_details : PrefixDict) (prefix_details : PrefixDict) : PrefixDict :=
  prefix_details.foldl
    (fun a kv =>
      let a := pdUpdate a kv.1 (fun d => { d with TotalSize := d.TotalSize + kv.2.TotalSize })
      mergeClasses a kv.1 kv.2.StorageClass)
    all_details

/-- One iteration of the per-unit loop of `main` (lines 227-240): run
`calculate_storage_class_data` on the unit's objects and merge the result
into the running totals. -/
def mergeStep (acc : Prod Dict PrefixDict) (batch : List S3Object) : Prod Dict PrefixDict :=
  let res := calculate_storage_class_data batch
  (mergeGlobal acc.1 res.1, mergePrefixes acc.2 res.2)

/-- The whole accumulation of `main` over a list of per-unit batches,
starting from empty defaultdicts. -/
def mainAccumulate (batches : List (List S3Object)) : Prod Dict PrefixDict :=
  batches.foldl mergeStep ([], [])

/-! ## Ranking (source lines 245-246) -/

/-- `sorted(all_prefix_details.items(), key=lambda item: item[1]['TotalSize'],
reverse=True)[:top_n]` — a stable sort on the descending comparison of
`TotalSize`, truncated to the first `top_n` entries. -/
def rankTop (all_prefix_details : PrefixDict) (top_n : ℕ) : PrefixDict :=
  (all_prefix_details.mergeSort
    (fun a b => decide (b.2.TotalSize ≤ a.2.TotalSize))).take top_n

/-! ## Lifecycle summaries -/

/-- A row of the `LifecycleRules` sheet built by
`summarize_lifecycle_rules`.  `'N/A'` placeholders are modelled by `none`,
the `'Yes'`/`'No'` delete-marker strings by `true`/`false`. -/
structure RuleSummaryRow where
  Bucket : String
  ID : String
  Pfx : String
  Status : String
  TransitionDays : Option Int
  StorageClass : Option String
  ExpirationDays : Option Int
  DeleteMarker : Bool
deriving DecidableEq, Repr

/-- `summarize_lifecycle_rules(bucket_name, lifecycle_rules)` (source lines
186-209).  Faithful to the code: the transition loop keeps overwriting the
same `rule_summary` fields and `summary.append` sits outside it, so each
rule contributes exactly one row, carrying the last transition's data. -/
def summarize_lifecycle_rules (bucket_name : String) (lifecycle_rules : List LCRule) :
    List RuleSummaryRow :=
  lifecycle_rules.map (fun rule =>
    let rule_summary : RuleSummaryRow := {
      Bucket := bucket_name
      ID := rule.ID.getD "N/A"
      Pfx := (rule.Filter.bind LCFilter.Pfx).getD "N/A"
      Status := rule.Status.getD "N/A"
      TransitionDays := none
      StorageClass := none
      ExpirationDays := none
      DeleteMarker := false }
    let rule_summary :=
      match rule.Transitions with
      | some transitions =>
          transitions.foldl
            (fun rs t => { rs with TransitionDays := t.Days, StorageClass := t.StorageClass })
            rule_summary
      | none => rule_summary
    match rule.Expiration with
    | some e =>
        { rule_summary with
          ExpirationDays := e.Days
          DeleteMarker := e.ExpiredObjectDeleteMarker.getD false }
    | none => rule_summary)

/-- A row of `write_lifecycle_details_to_excel` in `lifecycle_rules.py`
(there the delete-marker column holds `NoncurrentDays`, an optional
integer). -/
structure DetailRow where
  Bucket : String
  ID : String
  Pfx : String
  Status : String
  TransitionDays : Option Int
  StorageClass : Option String
  ExpirationDays : Option Int
  DeleteMarkerDays : Option Int
deriving DecidableEq, Repr

/-- `parse_lifecycle_rule(rule)` (lifecycle_rules.py lines 15-30):
`(transition_details, expiration_days, delete_marker_days)`. -/
def parse_lifecycle_rule (rule : LCRule) :
    Prod (List (Prod (Option Int) (Option String))) (Prod (Option Int) (Option Int)) :=
  let transitions := rule.Transitions.getD []
  let transition_details := transitions.map (fun t => (t.Days, t.StorageClass))
  let expiration_days := rule.Expiration.bind LCExpiration.Days
  let delete_marker_days :=
    rule.NoncurrentVersionExpiration.bind LCNoncurrent.NoncurrentDays
  (transition_details, expiration_days, delete_marker_days)

/-- The row-building loop of `write_lifecycle_details_to_excel`
(lifecycle_rules.py lines 35-60) for one bucket's rules: one row per
rule×transition, or a single `N/A`-transition row when a rule has no
transitions. -/
def lifecycle_detail_rows (bucket_name : String) (rules : List LCRule) : List DetailRow :=
  rules.foldl
    (fun rows rule =>
      let parsed := parse_lifecycle_rule rule
      let base : DetailRow := {
        Bucket := bucket_name
        ID := rule.ID.getD "N/A"
        Pfx := (rule.Filter.bind LCFilter.Pfx).getD "N/A"
        Status := rule.Status.getD "N/A"
        TransitionDays := none
        StorageClass := none
        ExpirationDays := parsed.2.1
        DeleteMarkerDays := parsed.2.2 }
      match parsed.1 with
      | [] => rows ++ [base]
      | ts => rows ++ ts.map (fun t => { base with TransitionDays := t.1, StorageClass := t.2 }))
    []

/-! ## Size formatting -/

/-- The `size_name` unit table of `convert_size`. -/
def size_name : List String :=
  ["Bytes", "KB", "MB", "GB", "TB", "PB", "EB", "ZB", "YB"]

/-- `convert_size(size_bytes)` (source lines 103-110), idealising the
floating-point logarithm as exact: `int(math.floor(math.log(n, 1024)))` is
`Nat.log 1024 n` for positive `n`.  Failure is `none`: `math.log` raises a
domain error on negative input, and `size_name[i]` raises `IndexError`
when `i` falls outside the 9-entry table. -/
def convert_size (size_bytes : ℤ) : Option String :=
  if size_bytes = 0 then some "0B"
  else if size_bytes < 0 then none
  else
    let i := Nat.log 1024 size_bytes.toNat
    match size_name[i]? with
    | some unit => some (toString (round2 ((size_bytes : ℚ) / 1024 ^ i)) ++ " " ++ unit)
    | none => none

/-! ## Spec-side definitions and proof support

Functions in this section are not translations of the source: they state
what the spec claims (`ruleAppliesSpec`), give order-independent semantic
descriptions of the aggregates (`globalSpec`, `vspec`) used to compare
differently-batched runs, or package concrete inputs for the testable
scenarios. -/

/-- The §4.3 matching predicate in the claim's words: a rule applies to a
prefix iff it carries no filter at all (bucket-wide), or the prefix of its
simple `Prefix` filter, or of the `Prefix` component of its composite
`And` filter (tag conditions ignored), is a literal string-prefix of the
target prefix. -/
def ruleAppliesSpec (p : String) (rule : LCRule) : Prop :=
  rule.Filter = none
  ∨ (∃ f fp, rule.Filter = some f ∧ f.Pfx = some fp ∧ fp.toList <+: p.toList)
  ∨ (∃ f a ap, rule.Filter = some f ∧ f.AndF = some a ∧ a.AndPfx = some ap
      ∧ ap.toList <+: p.toList)

/-- A `Filter` object that is present yet carries neither a simple
`Prefix` nor an `And` component with a `Prefix`. -/
def malformedFilter (f : LCFilter) : Prop :=
  f.Pfx = none ∧ (f.AndF = none ∨ ∃ a, f.AndF = some a ∧ a.AndPfx = none)

/-- Merge of two optional counters: either side absent keeps the other,
both present add (the effect of `defaultdict` `+=` merging). -/
def omerge : Option Int → Option Int → Option Int
  | none, y => y
  | some a, none => some a
  | some a, some b => some (a + b)

/-- The records of a batch carrying a given (defaulted) storage class. -/
def recordsWithClass (l : List S3Object) (c : String) : List S3Object :=
  l.filter (fun o => storageClassOf o == c)

/-- Order-independent description of one global counter: absent when no
record has the class, otherwise the summed sizes. -/
def globalSpec (l : List S3Object) (c : String) : Option Int :=
  if recordsWithClass l c = [] then none
  else some ((recordsWithClass l c).map S3Object.Size).sum

/-- The contribution of a single record to one global counter. -/
def gsingle (o : S3Object) (c : String) : Option Int :=
  if storageClassOf o = c then some o.Size else none

/-- The records of a batch resolving to a given prefix. -/
def recordsAt (l : List S3Object) (p : String) : List S3Object :=
  l.filter (fun o => prefixOfKey o.Key == p)

/-- The extensional content of an optional per-prefix aggregate: total and
class-lookup function.  Two Python dict trees are equal exactly when their
`PDView`s agree at every prefix. -/
abbrev PDView := Option (Prod Int (String → Option Int))

/-- Read a `PrefixDict` entry extensionally. -/
def viewPD : Option PrefixDetail → PDView
  | none => none
  | some e => some (e.TotalSize, fun c => dictFind e.StorageClass c)

/-- Merge of two optional per-prefix aggregates. -/
def vcombine : PDView → PDView → PDView
  | none, y => y
  | some a, none => some a
  | some a, some b => some (a.1 + b.1, fun c => omerge (a.2 c) (b.2 c))

/-- Order-independent description of one per-prefix aggregate. -/
def vspec (l : List S3Object) (p : String) : PDView :=
  if recordsAt l p = [] then none
  else some (((recordsAt l p).map S3Object.Size).sum,
             fun c => globalSpec (recordsAt l p) c)

/-- The contribution of a single record to one per-prefix aggregate. -/
def vsingle (o : S3Object) (p : String) : PDView :=
  if prefixOfKey o.Key = p then some (o.Size, fun c => gsingle o c) else none

/-- Sum of a per-entry measure over a `PrefixDict`. -/
def pdSumBy (pd : PrefixDict) (m : PrefixDetail → Int) : Int :=
  (pd.map (fun kv => m kv.2)).sum

/-- `STORAGE_CLASS_PRICING.get(c, 0)`. -/
def priceOf (c : String) : ℚ := (qdictFind STORAGE_CLASS_PRICING c).getD 0

/-- The three objects of the spec's end-to-end scenario (§8). -/
def demoObjects : List S3Object :=
  [ { Key := "a/1.txt", Size := 100, StorageClass := some "STANDARD" },
    { Key := "a/2.txt", Size := 924, StorageClass := some "GLACIER" },
    { Key := "b/1.txt", Size := 1024, StorageClass := some "STANDARD" } ]

/-- The demo records split into two batches (per-unit work lists). -/
def demoBatches : List (List S3Object) :=
  [ [ { Key := "a/1.txt", Size := 100, StorageClass := some "STANDARD" } ],
    [ { Key := "a/2.txt", Size := 924, StorageClass := some "GLACIER" },
      { Key := "b/1.txt", Size := 1024, StorageClass := some "STANDARD" } ] ]

/-- The demo records in a different order, as a single batch. -/
def demoShuffled : List S3Object :=
  [ { Key := "b/1.txt", Size := 1024, StorageClass := some "STANDARD" },
    { Key := "a/1.txt", Size := 100, StorageClass := some "STANDARD" },
    { Key := "a/2.txt", Size := 924, StorageClass := some "GLACIER" } ]

/-- A rule whose `Filter` object is present but empty. -/
def emptyFilterRule : LCRule :=
  { ID := some "r"
    Filter := some { Pfx := none, AndF := none }
    Status := some "Enabled"
    Transitions := none
    Expiration := none
    NoncurrentVersionExpiration := none }

/-- A rule with two transitions, exercising the summary flattening. -/
def twoTransitionRule : LCRule :=
  { ID := some "t"
    Filter := none
    Status := some "Enabled"
    Transitions := some [ { Days := some 30, StorageClass := some "GLACIER" },
                          { Days := some 90, StorageClass := some "DEEP_ARCHIVE" } ]
    Expiration := none
    NoncurrentVersionExpiration := none }

/-! ## Theorems -/


theorem splitOnChar_cons (sep c : Char) (rest hd : List Char) (tl : List (List Char))
    (h : splitOnChar sep rest = hd :: tl) :
    splitOnChar sep (c :: rest) = if c = sep then [] :: hd :: tl else (c :: hd) :: tl := by
  simp only [splitOnChar, h]

theorem splitOnChar_ne_nil (sep : Char) (cs : List Char) : splitOnChar sep cs ≠ [] := by
  cases cs with
  | nil => simp [splitOnChar]
  | cons c rest =>
    cases h : splitOnChar sep rest with
    | nil => exact absurd h (splitOnChar_ne_nil sep rest)
    | cons hd tl =>
      rw [splitOnChar_cons sep c rest hd tl h]
      split <;> simp

theorem joinSlash_splitOnChar (cs : List Char) : joinSlash (splitOnChar '/' cs) = cs := by
  induction cs with
  | nil => rfl
  | cons c rest ih =>
    cases h : splitOnChar '/' rest with
    | nil => exact absurd h (splitOnChar_ne_nil _ _)
    | cons hd tl =>
      rw [h] at ih
      rw [splitOnChar_cons '/' c rest hd tl h]
      by_cases hc : c = '/'
      · rw [if_pos hc, hc]
        show '/' :: joinSlash (hd :: tl) = '/' :: rest
        rw [ih]
      · rw [if_neg hc]
        cases tl with
        | nil =>
          show c :: hd = c :: rest
          simpa [joinSlash] using ih
        | cons t1 ts =>
          show (c :: hd) ++ '/' :: joinSlash (t1 :: ts) = c :: rest
          have h2 : hd ++ '/' :: joinSlash (t1 :: ts) = rest := ih
          simp [← h2]

theorem sep_not_mem_splitOnChar (sep : Char) (cs : List Char) :
    ∀ seg ∈ splitOnChar sep cs, sep ∉ seg := by
  induction cs with
  | nil =>
    intro seg h
    simp [splitOnChar] at h
    simp [h]
  | cons c rest ih =>
    intro seg hseg
    cases h : splitOnChar sep rest with
    | nil => exact absurd h (splitOnChar_ne_nil _ _)
    | cons hd tl =>
      rw [h] at ih
      rw [splitOnChar_cons sep c rest hd tl h] at hseg
      by_cases hc : c = sep
      · rw [if_pos hc] at hseg
        rcases List.mem_cons.mp hseg with h1 | h2
        · simp [h1]
        · exact ih seg h2
      · rw [if_neg hc] at hseg
        rcases List.mem_cons.mp hseg with h1 | h2
        · subst h1
          intro hmem
          rcases List.mem_cons.mp hmem with h3 | h4
          · exact hc h3.symm
          · exact ih hd (List.mem_cons_self _ _) h4
        · exact ih seg (List.mem_cons_of_mem _ h2)

/-- Claim C7: the Prefix Resolver returns all slash-delimited segments of
the key except the last, re-joined with slashes, plus a trailing slash
(join-of-split round-trips and segments are slash-free); a key whose split
has a single segment — a root-level key such as "file.txt" — maps to "/";
the function is total. -/
theorem prefix_resolver_correct :
    (∀ cs : List Char, joinSlash (splitOnChar '/' cs) = cs)
    ∧ (∀ cs : List Char, ∀ seg ∈ splitOnChar '/' cs, '/' ∉ seg)
    ∧ (∀ key : String, key ≠ "" →
        (prefixOfKey key).toList
          = joinSlash ((splitOnChar '/' key.toList).dropLast) ++ ['/'])
    ∧ (∀ key : String, key ≠ "" → (splitOnChar '/' key.toList).length = 1 →
        prefixOfKey key = "/")
    ∧ prefixOfKey "file.txt" = "/" := by
  refine ⟨joinSlash_splitOnChar, sep_not_mem_splitOnChar '/', ?_, ?_, by decide⟩
  · intro key _
    rfl
  · intro key _ hlen
    rcases List.length_eq_one.mp hlen with ⟨x, hx⟩
    simp only [prefixOfKey, hx, List.dropLast_single]
    rfl

theorem prefix_resolver_correct_witness :
    ("file.txt" : String) ≠ "" ∧ (splitOnChar '/' "file.txt".toList).length = 1
      ∧ prefixOfKey "file.txt" = "/" :=
  ⟨by decide, by decide, prefix_resolver_correct.2.2.2.1 "file.txt" (by decide) (by decide)⟩



/-! ### Lifecycle matcher lemmas -/

theorem ruleMatches_iff (p : String) (rule : LCRule) :
    ruleMatches p rule = true ↔ ruleAppliesSpec p rule := by
  unfold ruleMatches ruleAppliesSpec
  cases hf : rule.Filter with
  | none => simp
  | some f =>
      cases hp : f.Pfx with
      | none =>
          cases ha : f.AndF with
          | none => simp [hp, ha]
          | some a =>
              cases hap : a.AndPfx with
              | none => simp [hp, ha, hap]
              | some ap => simp [hp, ha, hap, List.isPrefixOf_iff_prefix]
      | some fp =>
          cases ha : f.AndF with
          | none => simp [hp, ha, List.isPrefixOf_iff_prefix]
          | some a =>
              cases hap : a.AndPfx with
              | none => simp [hp, ha, hap, List.isPrefixOf_iff_prefix]
              | some ap => simp [hp, ha, hap, List.isPrefixOf_iff_prefix]

theorem count_filter_eq (r : LCRule) (pred : LCRule → Bool) (l : List LCRule) :
    List.count r (l.filter pred)
      = if pred r = true then List.count r l else 0 := by
  induction l with
  | nil => simp
  | cons a t ih =>
      by_cases ha : pred a = true
      · rw [List.filter_cons_of_pos ha]
        by_cases har : a = r
        · subst har
          simp [List.count_cons_self, ih, ha]
        · rw [List.count_cons_of_ne (by exact fun h => har h.symm),
              List.count_cons_of_ne (by exact fun h => har h.symm), ih]
      · rw [List.filter_cons_of_neg ha]
        by_cases har : a = r
        · subst har
          simp [ih, ha]
        · rw [List.count_cons_of_ne (by exact fun h => har h.symm), ih]

/-- Claim C4: the Lifecycle Matcher returns exactly the rules that apply
per §4.3 — no filter at all, or a simple/composite filter prefix that is a
literal string-prefix of the target — preserving input order, matching no
rule twice, and not deduplicating repeated input rules; a `"logs/"` filter
matches `"logs/2024/"` but not `"images/"`. -/
theorem lifecycle_matcher_correct :
    (∀ p rule, ruleMatches p rule = true ↔ ruleAppliesSpec p rule)
    ∧ (∀ p rules, List.Sublist ( get_lifecycle_for_prefix p rules) rules)
    ∧ (∀ p rules rule,
        List.count rule ( get_lifecycle_for_prefix p rules)
          = if ruleMatches p rule = true then List.count rule rules else 0)
    ∧ (∀ p rules rule, rule ∈ rules → rule.Filter = none →
        rule ∈ get_lifecycle_for_prefix p rules)
    ∧ (∀ rule, rule.Filter = some { Pfx := some "logs/", AndF := none } →
        ruleMatches "logs/2024/" rule = true ∧ ruleMatches "images/" rule = false) := by
  refine ⟨ruleMatches_iff, ?_, ?_, ?_, ?_⟩
  · intro p rules
    exact List.filter_sublist rules
  · intro p rules rule
    exact count_filter_eq rule (ruleMatches p) rules
  · intro p rules rule hmem hnone
    unfold get_lifecycle_for_prefix
    refine List.mem_filter.mpr ⟨hmem, ?_⟩
    unfold ruleMatches
    rw [hnone]
  · intro rule hf
    unfold ruleMatches
    rw [hf]
    exact ⟨by decide, by decide⟩

theorem lifecycle_matcher_correct_witness :
    (twoTransitionRule ∈ [twoTransitionRule] ∧ twoTransitionRule.Filter = none
        ∧ twoTransitionRule ∈ get_lifecycle_for_prefix "any/" [twoTransitionRule])
    ∧ (ruleMatches "logs/2024/"
          { twoTransitionRule with Filter := some { Pfx := some "logs/", AndF := none } } = true
        ∧ ruleMatches "images/"
          { twoTransitionRule with Filter := some { Pfx := some "logs/", AndF := none } } = false) :=
  ⟨⟨List.mem_cons_self _ _, rfl,
      lifecycle_matcher_correct.2.2.2.1 "any/" [twoTransitionRule] twoTransitionRule
        (List.mem_cons_self _ _) rfl⟩,
    lifecycle_matcher_correct.2.2.2.2
      { twoTransitionRule with Filter := some { Pfx := some "logs/", AndF := none } } rfl⟩

/-- Claim C5 counterexample: a rule whose `Filter` object is present but
empty is NOT treated as bucket-wide — at prefix `"x"` the matcher returns
the empty list rather than the rule. -/
theorem empty_filter_rule_not_matched :
    emptyFilterRule.Filter = some { Pfx := none, AndF := none }
    ∧ get_lifecycle_for_prefix "x" [emptyFilterRule] = [] :=
  ⟨rfl, by decide⟩

/-- Claim C5 (amended): a rule whose `Filter` object is present but
carries neither a simple `Prefix` nor an `And` component with a `Prefix`
matches NO prefix: it never appears in the matcher's output. -/
theorem malformed_filter_matches_nothing (p : String) (rules : List LCRule)
    (rule : LCRule) (f : LCFilter) (hf : rule.Filter = some f)
    (hm : malformedFilter f) :
    rule ∉ get_lifecycle_for_prefix p rules := by
  intro hmem
  have h2 := (List.mem_filter.mp hmem).2
  have h3 := (ruleMatches_iff p rule).mp h2
  rcases h3 with h3 | ⟨f', fp, hf', hp', _⟩ | ⟨f', a', ap, hf', ha', hap', _⟩
  · rw [hf] at h3
    cases h3
  · rw [hf] at hf'
    injection hf' with e
    subst e
    rw [hm.1] at hp'
    cases hp'
  · rw [hf] at hf'
    injection hf' with e
    subst e
    rcases hm.2 with h | ⟨a2, ha2, hap2⟩
    · rw [h] at ha'
      cases ha'
    · rw [ha2] at ha'
      injection ha' with e2
      subst e2
      rw [hap2] at hap'
      cases hap'

theorem malformed_filter_matches_nothing_witness :
    emptyFilterRule.Filter = some { Pfx := none, AndF := none }
    ∧ malformedFilter { Pfx := none, AndF := none }
    ∧ emptyFilterRule ∉ get_lifecycle_for_prefix "y" [emptyFilterRule] :=
  ⟨rfl, ⟨rfl, Or.inl rfl⟩,
    malformed_filter_matches_nothing "y" [emptyFilterRule] emptyFilterRule
      { Pfx := none, AndF := none } rfl ⟨rfl, Or.inl rfl⟩⟩

/-- Claim C8: the Ranker returns min(n, count) entries, sorted by
`TotalSize` descending, and the empty sequence for n = 0. -/
theorem ranker_spec (pd : PrefixDict) (n : ℕ) :
    (rankTop pd n).length = min n pd.length
    ∧ List.Pairwise (fun a b => b.2.TotalSize ≤ a.2.TotalSize) (rankTop pd n)
    ∧ rankTop pd 0 = [] := by
  refine ⟨?_, ?_, ?_⟩
  · simp [rankTop]
  · have hs := @List.sorted_mergeSort (Prod String PrefixDetail)
      (fun a b => decide (b.2.TotalSize ≤ a.2.TotalSize))
      (fun a b c h1 h2 => by
        simp only [decide_eq_true_eq] at h1 h2 ⊢
        exact le_trans h2 h1)
      (fun a b => by
        rcases le_total b.2.TotalSize a.2.TotalSize with h | h <;> simp [h])
      pd
    have hp : List.Pairwise (fun (a b : Prod String PrefixDetail) => b.2.TotalSize ≤ a.2.TotalSize)
        (pd.mergeSort (fun a b => decide (b.2.TotalSize ≤ a.2.TotalSize))) := by
      refine hs.imp ?_
      intro a b h
      simpa using h
    exact hp.sublist (List.take_sublist _ _)
  · simp [rankTop]

/-- Claim C9: at the concrete two-transition rule, the summary built by
`summarize_lifecycle_rules` has a single row carrying only the last
transition, while the `lifecycle_rules.py` writer emits one row per
transition — the code collapses rule×transition rows. -/
theorem summary_collapses_transitions :
    (summarize_lifecycle_rules "bucket" [twoTransitionRule]).length = 1
    ∧ (summarize_lifecycle_rules "bucket" [twoTransitionRule]).map RuleSummaryRow.TransitionDays
        = [some 90]
    ∧ (summarize_lifecycle_rules "bucket" [twoTransitionRule]).map RuleSummaryRow.StorageClass
        = [some "DEEP_ARCHIVE"]
    ∧ (lifecycle_detail_rows "bucket" [twoTransitionRule]).length = 2
    ∧ (lifecycle_detail_rows "bucket" [twoTransitionRule]).map DetailRow.TransitionDays
        = [some 30, some 90] :=
  ⟨rfl, by decide, by decide, rfl, by decide⟩

/-- Claim C10: `convert_size` formats 0 as "0B"; for 1 ≤ n < 1024^9 the
unit index stays below 9 and a string is produced; negative input and
n ≥ 1024^9 fail (domain error / IndexError, modelled as `none`). -/
theorem convert_size_domain :
    convert_size 0 = some "0B"
    ∧ (∀ z : ℤ, 1 ≤ z → z < 1024 ^ 9 →
        Nat.log 1024 z.toNat < 9 ∧ (convert_size z).isSome = true)
    ∧ (∀ z : ℤ, z < 0 → convert_size z = none)
    ∧ (∀ z : ℤ, 1024 ^ 9 ≤ z → convert_size z = none) := by
  refine ⟨rfl, ?_, ?_, ?_⟩
  · intro z h1 h2
    have hz0 : z ≠ 0 := by omega
    have hzneg : ¬ z < 0 := by omega
    have hn1 : 1 ≤ z.toNat := by omega
    have hnlt : z.toNat < 1024 ^ 9 := by
      have h3 : (z.toNat : ℤ) < 1024 ^ 9 := by
        rw [Int.toNat_of_nonneg (by omega)]
        exact h2
      exact_mod_cast h3
    have hlog : Nat.log 1024 z.toNat < 9 := Nat.log_lt_of_lt_pow (by omega) hnlt
    refine ⟨hlog, ?_⟩
    unfold convert_size
    rw [if_neg hz0, if_neg hzneg]
    have hlen : Nat.log 1024 z.toNat < size_name.length := by
      simpa [size_name] using hlog
    simp only [List.getElem?_eq_getElem hlen]
    simp
  · intro z hz
    have hz0 : z ≠ 0 := by omega
    unfold convert_size
    rw [if_neg hz0, if_pos hz]
  · intro z hz
    have hz0 : z ≠ 0 := by
      intro h
      rw [h] at hz
      norm_num at hz
    have hzneg : ¬ z < 0 := by
      intro h
      have h4 : (0:ℤ) < 1024 ^ 9 := by norm_num
      omega
    have hn : z.toNat ≠ 0 := by omega
    have hpow : 1024 ^ 9 ≤ z.toNat := by
      have h5 : (1024:ℤ) ^ 9 ≤ (z.toNat : ℤ) := by
        rw [Int.toNat_of_nonneg (by omega)]
        exact hz
      exact_mod_cast h5
    have hlog : 9 ≤ Nat.log 1024 z.toNat :=
      (Nat.pow_le_iff_le_log (by norm_num) hn).mp hpow
    unfold convert_size
    rw [if_neg hz0, if_neg hzneg]
    have hnone : size_name[Nat.log 1024 z.toNat]? = none := by
      apply List.getElem?_eq_none
      simpa [size_name] using hlog
    simp only [hnone]

theorem convert_size_domain_witness :
    (1 ≤ (3 : ℤ) ∧ (3 : ℤ) < 1024 ^ 9
      ∧ (Nat.log 1024 (3 : ℤ).toNat < 9 ∧ (convert_size 3).isSome = true))
    ∧ ((-1 : ℤ) < 0 ∧ convert_size (-1) = none)
    ∧ ((1024 : ℤ) ^ 9 ≤ 1024 ^ 9 ∧ convert_size (1024 ^ 9) = none) :=
  ⟨⟨by norm_num, by norm_num, convert_size_domain.2.1 3 (by norm_num) (by norm_num)⟩,
    ⟨by norm_num, convert_size_domain.2.2.1 (-1) (by norm_num)⟩,
    ⟨le_rfl, convert_size_domain.2.2.2 (1024 ^ 9) le_rfl⟩⟩



/-! ### omerge lemmas -/

theorem omerge_none_left (x : Option Int) : omerge none x = x := rfl

theorem omerge_none_right (x : Option Int) : omerge x none = x := by
  cases x <;> rfl

theorem omerge_assoc (x y z : Option Int) :
    omerge (omerge x y) z = omerge x (omerge y z) := by
  cases x <;> cases y <;> cases z <;> simp [omerge, add_assoc]

/-! ### Dictionary lemmas -/

theorem dictFind_cons (k : String) (v : Int) (rest : Dict) (c : String) :
    dictFind ((k, v) :: rest) c = if k = c then some v else dictFind rest c := rfl

theorem dictIncr_cons (k' : String) (v' : Int) (rest : Dict) (k : String) (v : Int) :
    dictIncr ((k', v') :: rest) k v
      = if k' = k then (k', v' + v) :: rest else (k', v') :: dictIncr rest k v := rfl

theorem dictSum_cons (k : String) (v : Int) (rest : Dict) :
    dictSum ((k, v) :: rest) = v + dictSum rest := by
  simp [dictSum]

theorem dictKeys_cons (k : String) (v : Int) (rest : Dict) :
    dictKeys ((k, v) :: rest) = k :: dictKeys rest := rfl

theorem dictFind_eq_none_of_not_mem (d : Dict) (c : String) (h : c ∉ dictKeys d) :
    dictFind d c = none := by
  induction d with
  | nil => rfl
  | cons kv rest ih =>
      obtain ⟨k', v'⟩ := kv
      rw [dictKeys_cons, List.mem_cons, not_or] at h
      rw [dictFind_cons, if_neg (fun hh => h.1 hh.symm)]
      exact ih h.2

theorem dictFind_dictIncr : ∀ (d : Dict) (k : String) (v : Int) (c : String),
    dictFind (dictIncr d k v) c = omerge (dictFind d c) (if c = k then some v else none)
  | [], k, v, c => by
      show dictFind [(k, v)] c = omerge none (if c = k then some v else none)
      rw [dictFind_cons, omerge_none_left]
      by_cases h : k = c
      · rw [if_pos h, if_pos h.symm]
      · rw [if_neg h, if_neg (fun hh => h hh.symm)]
        rfl
  | (k', v') :: rest, k, v, c => by
      rw [dictIncr_cons]
      by_cases h1 : k' = k
      · rw [if_pos h1, dictFind_cons, dictFind_cons]
        by_cases h2 : k' = c
        · rw [if_pos h2, if_pos h2]
          have hck : c = k := by rw [← h2, h1]
          rw [if_pos hck]
          rfl
        · rw [if_neg h2, if_neg h2]
          have hck : ¬ c = k := by
            rw [← h1]
            exact fun hh => h2 hh.symm
          rw [if_neg hck, omerge_none_right]
      · rw [if_neg h1, dictFind_cons, dictFind_cons]
        by_cases h2 : k' = c
        · rw [if_pos h2, if_pos h2]
          have hck : ¬ c = k := fun hh => h1 (h2.trans hh)
          rw [if_neg hck]
          rfl
        · rw [if_neg h2, if_neg h2]
          exact dictFind_dictIncr rest k v c

theorem dictSum_dictIncr : ∀ (d : Dict) (k : String) (v : Int),
    dictSum (dictIncr d k v) = dictSum d + v
  | [], k, v => by
      show dictSum [(k, v)] = dictSum [] + v
      simp [dictSum]
  | (k', v') :: rest, k, v => by
      rw [dictIncr_cons]
      by_cases h : k' = k
      · rw [if_pos h, dictSum_cons, dictSum_cons]
        ring
      · rw [if_neg h, dictSum_cons, dictSum_cons, dictSum_dictIncr rest k v]
        ring

theorem dictGet0_dictIncr (d : Dict) (k : String) (v : Int) (c : String) :
    dictGet0 (dictIncr d k v) c = dictGet0 d c + if c = k then v else 0 := by
  unfold dictGet0
  rw [dictFind_dictIncr]
  by_cases h : c = k
  · rw [if_pos h, if_pos h]
    cases dictFind d c <;> simp [omerge]
  · rw [if_neg h, if_neg h, omerge_none_right]
    simp

theorem dictKeys_dictIncr_of_mem : ∀ (d : Dict) (k : String) (v : Int),
    k ∈ dictKeys d → dictKeys (dictIncr d k v) = dictKeys d
  | [], k, v => by
      intro h
      simp [dictKeys] at h
  | (k', v') :: rest, k, v => by
      intro h
      rw [dictIncr_cons]
      by_cases h1 : k' = k
      · rw [if_pos h1, dictKeys_cons, dictKeys_cons]
      · rw [if_neg h1, dictKeys_cons, dictKeys_cons]
        rw [dictKeys_cons, List.mem_cons] at h
        rcases h with h | h
        · exact absurd h.symm h1
        · rw [dictKeys_dictIncr_of_mem rest k v h]

theorem dictKeys_dictIncr_of_not_mem : ∀ (d : Dict) (k : String) (v : Int),
    k ∉ dictKeys d → dictKeys (dictIncr d k v) = dictKeys d ++ [k]
  | [], k, v => by
      intro _
      rfl
  | (k', v') :: rest, k, v => by
      intro h
      rw [dictKeys_cons, List.mem_cons, not_or] at h
      rw [dictIncr_cons, if_neg (fun hh => h.1 hh.symm), dictKeys_cons, dictKeys_cons,
        dictKeys_dictIncr_of_not_mem rest k v h.2]
      rfl

theorem dictKeys_dictIncr_nodup (d : Dict) (k : String) (v : Int)
    (h : (dictKeys d).Nodup) : (dictKeys (dictIncr d k v)).Nodup := by
  by_cases hm : k ∈ dictKeys d
  · rw [dictKeys_dictIncr_of_mem d k v hm]
    exact h
  · rw [dictKeys_dictIncr_of_not_mem d k v hm]
    simp [List.nodup_append, h, hm]

/-! ### PrefixDict lemmas -/

theorem pdFind_cons (k : String) (e : PrefixDetail) (rest : PrefixDict) (c : String) :
    pdFind ((k, e) :: rest) c = if k = c then some e else pdFind rest c := rfl

theorem pdUpdate_cons (k' : String) (e : PrefixDetail) (rest : PrefixDict) (k : String)
    (f : PrefixDetail → PrefixDetail) :
    pdUpdate ((k', e) :: rest) k f
      = if k' = k then (k', f e) :: rest else (k', e) :: pdUpdate rest k f := rfl

theorem pdKeys_cons (k : String) (e : PrefixDetail) (rest : PrefixDict) :
    pdKeys ((k, e) :: rest) = k :: pdKeys rest := rfl

theorem pdFind_eq_none_of_not_mem (d : PrefixDict) (c : String) (h : c ∉ pdKeys d) :
    pdFind d c = none := by
  induction d with
  | nil => rfl
  | cons kv rest ih =>
      obtain ⟨k', e⟩ := kv
      rw [pdKeys_cons, List.mem_cons, not_or] at h
      rw [pdFind_cons, if_neg (fun hh => h.1 hh.symm)]
      exact ih h.2

theorem pdFind_pdUpdate : ∀ (d : PrefixDict) (k : String) (f : PrefixDetail → PrefixDetail)
    (c : String),
    pdFind (pdUpdate d k f) c
      = if c = k then some (f ((pdFind d k).getD pdDefault)) else pdFind d c
  | [], k, f, c => by
      show pdFind [(k, f pdDefault)] c = _
      rw [pdFind_cons]
      by_cases h : k = c
      · rw [if_pos h, if_pos h.symm]
        rfl
      · rw [if_neg h, if_neg (fun hh => h hh.symm)]
  | (k', e) :: rest, k, f, c => by
      by_cases h1 : k' = k
      · subst h1
        by_cases h2 : k' = c
        · subst h2
          simp [pdUpdate_cons, pdFind_cons]
        · have hck : ¬ c = k' := fun hh => h2 hh.symm
          simp [pdUpdate_cons, pdFind_cons, h2, hck]
      · simp only [pdUpdate_cons, if_neg h1, pdFind_cons]
        by_cases h2 : k' = c
        · have hck : ¬ c = k := fun hh => h1 (h2.trans hh)
          simp only [if_pos h2, if_neg hck]
        · simp only [if_neg h2, pdFind_pdUpdate rest k f c]

theorem pdUpdate_pdUpdate (d : PrefixDict) (k : String)
    (f g : PrefixDetail → PrefixDetail) :
    pdUpdate (pdUpdate d k f) k g = pdUpdate d k (fun e => g (f e)) := by
  induction d with
  | nil =>
      show pdUpdate [(k, f pdDefault)] k g = [(k, g (f pdDefault))]
      rw [pdUpdate_cons, if_pos rfl]
  | cons kv rest ih =>
      obtain ⟨k', e⟩ := kv
      by_cases h : k' = k
      · rw [pdUpdate_cons, if_pos h, pdUpdate_cons, if_pos h, pdUpdate_cons, if_pos h]
      · rw [pdUpdate_cons, if_neg h, pdUpdate_cons, if_neg h, pdUpdate_cons, if_neg h, ih]

theorem pdKeys_pdUpdate_of_mem : ∀ (d : PrefixDict) (k : String)
    (f : PrefixDetail → PrefixDetail), k ∈ pdKeys d → pdKeys (pdUpdate d k f) = pdKeys d
  | [], k, f => by
      intro h
      simp [pdKeys] at h
  | (k', e) :: rest, k, f => by
      intro h
      by_cases h1 : k' = k
      · rw [pdUpdate_cons, if_pos h1, pdKeys_cons, pdKeys_cons]
      · rw [pdKeys_cons, List.mem_cons] at h
        rcases h with h | h
        · exact absurd h.symm h1
        · rw [pdUpdate_cons, if_neg h1, pdKeys_cons, pdKeys_cons,
            pdKeys_pdUpdate_of_mem rest k f h]

theorem pdKeys_pdUpdate_of_not_mem : ∀ (d : PrefixDict) (k : String)
    (f : PrefixDetail → PrefixDetail),
    k ∉ pdKeys d → pdKeys (pdUpdate d k f) = pdKeys d ++ [k]
  | [], k, f => by
      intro _
      rfl
  | (k', e) :: rest, k, f => by
      intro h
      rw [pdKeys_cons, List.mem_cons, not_or] at h
      rw [pdUpdate_cons, if_neg (fun hh => h.1 hh.symm), pdKeys_cons, pdKeys_cons,
        pdKeys_pdUpdate_of_not_mem rest k f h.2]
      rfl

theorem pdKeys_pdUpdate_nodup (d : PrefixDict) (k : String)
    (f : PrefixDetail → PrefixDetail) (h : (pdKeys d).Nodup) :
    (pdKeys (pdUpdate d k f)).Nodup := by
  by_cases hm : k ∈ pdKeys d
  · rw [pdKeys_pdUpdate_of_mem d k f hm]
    exact h
  · rw [pdKeys_pdUpdate_of_not_mem d k f hm]
    simp [List.nodup_append, h, hm]

theorem pdSumBy_cons (k : String) (e : PrefixDetail) (rest : PrefixDict)
    (m : PrefixDetail → Int) :
    pdSumBy ((k, e) :: rest) m = m e + pdSumBy rest m := by
  simp [pdSumBy]

theorem pdSumBy_pdUpdate : ∀ (d : PrefixDict) (k : String)
    (f : PrefixDetail → PrefixDetail) (m : PrefixDetail → Int) (δ : Int),
    m pdDefault = 0 → (∀ e, m (f e) = m e + δ) →
    pdSumBy (pdUpdate d k f) m = pdSumBy d m + δ
  | [], k, f, m, δ => by
      intro h0 hf
      show pdSumBy [(k, f pdDefault)] m = pdSumBy [] m + δ
      rw [pdSumBy_cons, hf, h0]
      simp [pdSumBy]
  | (k', e) :: rest, k, f, m, δ => by
      intro h0 hf
      by_cases h1 : k' = k
      · rw [pdUpdate_cons, if_pos h1, pdSumBy_cons, pdSumBy_cons, hf]
        ring
      · rw [pdUpdate_cons, if_neg h1, pdSumBy_cons, pdSumBy_cons,
          pdSumBy_pdUpdate rest k f m δ h0 hf]
        ring

theorem pdUpdate_forall : ∀ (d : PrefixDict) (k : String)
    (f : PrefixDetail → PrefixDetail) (P : PrefixDetail → Prop),
    (∀ e ∈ d, P e.2) → (∀ x, P x → P (f x)) → P (f pdDefault) →
    ∀ e ∈ pdUpdate d k f, P e.2
  | [], k, f, P => by
      intro _ _ hd e he
      have he' : e ∈ [(k, f pdDefault)] := he
      have he2 : e = (k, f pdDefault) := by simpa using he'
      rw [he2]
      exact hd
  | (k', e0) :: rest, k, f, P => by
      intro hall hstep hd e he
      by_cases h1 : k' = k
      · rw [pdUpdate_cons, if_pos h1] at he
        rcases List.mem_cons.mp he with h | h
        · rw [h]
          exact hstep e0 (hall (k', e0) (List.mem_cons_self _ _))
        · exact hall e (List.mem_cons_of_mem _ h)
      · rw [pdUpdate_cons, if_neg h1] at he
        rcases List.mem_cons.mp he with h | h
        · rw [h]
          exact hall (k', e0) (List.mem_cons_self _ _)
        · exact pdUpdate_forall rest k f P
            (fun x hx => hall x (List.mem_cons_of_mem _ hx)) hstep hd e h

/-! ### The loop body as a single update -/

theorem cssdStep_eq (st : Prod Dict PrefixDict) (o : S3Object) :
    cssdStep st o
      = (dictIncr st.1 (storageClassOf o) o.Size,
         pdUpdate st.2 (prefixOfKey o.Key)
           (fun d => { TotalSize := d.TotalSize + o.Size,
                       StorageClass := dictIncr d.StorageClass (storageClassOf o) o.Size })) := by
  unfold cssdStep storageClassOf
  dsimp only
  rw [pdUpdate_pdUpdate]

/-! ### C1: the aggregation invariants -/

theorem cssd_fold_inv (objects : List S3Object) :
    ∀ st : Prod Dict PrefixDict,
    ((∀ e ∈ st.2, e.2.TotalSize = dictSum e.2.StorageClass)
      ∧ (∀ c, dictGet0 st.1 c = pdSumBy st.2 (fun d => dictGet0 d.StorageClass c))
      ∧ pdSumBy st.2 PrefixDetail.TotalSize = dictSum st.1) →
    ((∀ e ∈ (objects.foldl cssdStep st).2, e.2.TotalSize = dictSum e.2.StorageClass)
      ∧ (∀ c, dictGet0 (objects.foldl cssdStep st).1 c
          = pdSumBy (objects.foldl cssdStep st).2 (fun d => dictGet0 d.StorageClass c))
      ∧ pdSumBy (objects.foldl cssdStep st).2 PrefixDetail.TotalSize
          = dictSum (objects.foldl cssdStep st).1) := by
  induction objects with
  | nil =>
      intro st h
      exact h
  | cons o rest ih =>
      intro st h
      rw [List.foldl_cons]
      apply ih
      obtain ⟨h1, h2, h3⟩ := h
      rw [cssdStep_eq]
      refine ⟨?_, ?_, ?_⟩
      · apply pdUpdate_forall st.2 (prefixOfKey o.Key) _
          (fun d => d.TotalSize = dictSum d.StorageClass) h1
        · intro x hx
          show x.TotalSize + o.Size
              = dictSum (dictIncr x.StorageClass (storageClassOf o) o.Size)
          rw [dictSum_dictIncr, hx]
        · show pdDefault.TotalSize + o.Size
            = dictSum (dictIncr pdDefault.StorageClass (storageClassOf o) o.Size)
          rw [dictSum_dictIncr]
          simp [pdDefault, dictSum]
      · intro c
        show dictGet0 (dictIncr st.1 (storageClassOf o) o.Size) c = _
        rw [dictGet0_dictIncr, h2 c,
          pdSumBy_pdUpdate st.2 (prefixOfKey o.Key) _ _
            (if c = storageClassOf o then o.Size else 0)
            (by simp [pdDefault, dictGet0, dictFind])
            (fun e => by
              show dictGet0 (dictIncr e.StorageClass (storageClassOf o) o.Size) c = _
              rw [dictGet0_dictIncr])]
      · show pdSumBy (pdUpdate st.2 (prefixOfKey o.Key) _) PrefixDetail.TotalSize
            = dictSum (dictIncr st.1 (storageClassOf o) o.Size)
        rw [pdSumBy_pdUpdate st.2 (prefixOfKey o.Key) _ _ o.Size rfl (fun e => rfl),
          dictSum_dictIncr, h3]

/-- Claim C1: for every object sequence, each prefix's `TotalSize` equals
the sum of its per-class byte counts, each global per-class counter equals
the sum of that class's bytes across all prefix aggregates, and hence the
prefix totals sum to the global totals. -/
theorem aggregator_invariants (objects : List S3Object) :
    (∀ e ∈ (calculate_storage_class_data objects).2,
        e.2.TotalSize = dictSum e.2.StorageClass)
    ∧ (∀ c, dictGet0 (calculate_storage_class_data objects).1 c
        = pdSumBy (calculate_storage_class_data objects).2
            (fun d => dictGet0 d.StorageClass c))
    ∧ pdSumBy (calculate_storage_class_data objects).2 PrefixDetail.TotalSize
        = dictSum (calculate_storage_class_data objects).1 := by
  unfold calculate_storage_class_data
  apply cssd_fold_inv
  refine ⟨?_, ?_, rfl⟩
  · intro e he
    simp at he
  · intro c
    rfl

/-! ### C2: order/batching independence — global side -/

theorem gsingle_eq (o : S3Object) (c : String) :
    gsingle o c = if c = storageClassOf o then some o.Size else none := by
  unfold gsingle
  by_cases h : storageClassOf o = c
  · rw [if_pos h, if_pos h.symm]
  · rw [if_neg h, if_neg (fun hh => h hh.symm)]

theorem recordsWithClass_cons (o : S3Object) (l : List S3Object) (c : String) :
    recordsWithClass (o :: l) c
      = if storageClassOf o = c then o :: recordsWithClass l c
        else recordsWithClass l c := by
  by_cases h : storageClassOf o = c
  · simp [recordsWithClass, List.filter_cons, h]
  · simp [recordsWithClass, List.filter_cons, h]

theorem globalSpec_nil (c : String) : globalSpec [] c = none := rfl

theorem globalSpec_cons (o : S3Object) (l : List S3Object) (c : String) :
    globalSpec (o :: l) c = omerge (gsingle o c) (globalSpec l c) := by
  unfold globalSpec gsingle
  rw [recordsWithClass_cons]
  by_cases h : storageClassOf o = c
  · rw [if_pos h, if_pos h]
    by_cases h2 : recordsWithClass l c = []
    · rw [if_neg (by simp), if_pos h2, h2]
      simp [omerge]
    · rw [if_neg (by simp), if_neg h2]
      simp [omerge]
  · rw [if_neg h, if_neg h, omerge_none_left]

theorem globalSpec_append (l1 l2 : List S3Object) (c : String) :
    globalSpec (l1 ++ l2) c = omerge (globalSpec l1 c) (globalSpec l2 c) := by
  induction l1 with
  | nil => rw [List.nil_append, globalSpec_nil, omerge_none_left]
  | cons o t ih =>
      rw [List.cons_append, globalSpec_cons, ih, globalSpec_cons, omerge_assoc]

theorem globalSpec_perm {l1 l2 : List S3Object} (h : l1.Perm l2) (c : String) :
    globalSpec l1 c = globalSpec l2 c := by
  have hr : (recordsWithClass l1 c).Perm (recordsWithClass l2 c) := h.filter _
  unfold globalSpec
  by_cases h1 : recordsWithClass l1 c = []
  · have h2 : recordsWithClass l2 c = [] := by
      rw [h1] at hr
      exact hr.symm.eq_nil
    rw [if_pos h1, if_pos h2]
  · have h2 : ¬ recordsWithClass l2 c = [] := by
      intro hh
      rw [hh] at hr
      exact h1 hr.eq_nil
    rw [if_neg h1, if_neg h2]
    congr 1
    exact (hr.map S3Object.Size).sum_eq

theorem cssdStep_global_find (st : Prod Dict PrefixDict) (o : S3Object) (c : String) :
    dictFind (cssdStep st o).1 c = omerge (dictFind st.1 c) (gsingle o c) := by
  rw [cssdStep_eq]
  show dictFind (dictIncr st.1 (storageClassOf o) o.Size) c = _
  rw [dictFind_dictIncr, gsingle_eq]

theorem cssd_foldl_find (objects : List S3Object) :
    ∀ (st : Prod Dict PrefixDict) (c : String),
    dictFind ((objects.foldl cssdStep st).1) c
      = omerge (dictFind st.1 c) (globalSpec objects c) := by
  induction objects with
  | nil =>
      intro st c
      rw [List.foldl_nil, globalSpec_nil, omerge_none_right]
  | cons o rest ih =>
      intro st c
      rw [List.foldl_cons, ih, cssdStep_global_find, globalSpec_cons, omerge_assoc]

theorem cssd_global_find (l : List S3Object) (c : String) :
    dictFind (calculate_storage_class_data l).1 c = globalSpec l c := by
  unfold calculate_storage_class_data
  rw [cssd_foldl_find l ([], []) c]
  rfl

theorem mergeGlobal_nil (acc : Dict) : mergeGlobal acc [] = acc := rfl

theorem mergeGlobal_cons (acc : Dict) (k : String) (v : Int) (rest : Dict) :
    mergeGlobal acc ((k, v) :: rest) = mergeGlobal (dictIncr acc k v) rest := rfl

theorem dictFind_mergeGlobal : ∀ (res acc : Dict) (c : String),
    (dictKeys res).Nodup →
    dictFind (mergeGlobal acc res) c = omerge (dictFind acc c) (dictFind res c)
  | [], acc, c => by
      intro _
      rw [mergeGlobal_nil]
      show dictFind acc c = omerge (dictFind acc c) none
      rw [omerge_none_right]
  | (k, v) :: rest, acc, c => by
      intro hnd
      rw [dictKeys_cons] at hnd
      have hk : k ∉ dictKeys rest := (List.nodup_cons.mp hnd).1
      have hnd2 : (dictKeys rest).Nodup := (List.nodup_cons.mp hnd).2
      rw [mergeGlobal_cons, dictFind_mergeGlobal rest (dictIncr acc k v) c hnd2,
        dictFind_dictIncr, dictFind_cons]
      by_cases h : c = k
      · rw [if_pos h, if_pos h.symm]
        have : dictFind rest c = none :=
          dictFind_eq_none_of_not_mem rest c (h ▸ hk)
        rw [this, omerge_none_right]
      · rw [if_neg h, if_neg (fun hh => h hh.symm), omerge_none_right]

/-! ### C2: order/batching independence — per-prefix side -/

theorem viewPD_none : viewPD none = none := rfl

theorem vcombine_none_left (x : PDView) : vcombine none x = x := rfl

theorem vcombine_none_right (x : PDView) : vcombine x none = x := by
  cases x <;> rfl

theorem vcombine_assoc (x y z : PDView) :
    vcombine (vcombine x y) z = vcombine x (vcombine y z) := by
  cases x with
  | none => rfl
  | some a =>
      cases y with
      | none => rfl
      | some b =>
          cases z with
          | none => rfl
          | some c =>
              show some _ = some _
              simp only [vcombine, Option.some.injEq, Prod.mk.injEq]
              constructor
              · exact add_assoc a.1 b.1 c.1
              · funext c'
                exact omerge_assoc (a.2 c') (b.2 c') (c.2 c')

theorem recordsAt_cons (o : S3Object) (l : List S3Object) (p : String) :
    recordsAt (o :: l) p
      = if prefixOfKey o.Key = p then o :: recordsAt l p else recordsAt l p := by
  by_cases h : prefixOfKey o.Key = p
  · simp [recordsAt, List.filter_cons, h]
  · simp [recordsAt, List.filter_cons, h]

theorem globalSpec_singleton (o : S3Object) (c : String) :
    globalSpec [o] c = gsingle o c := by
  rw [show [o] = o :: ([] : List S3Object) from rfl, globalSpec_cons, globalSpec_nil,
    omerge_none_right]

theorem vspec_nil (p : String) : vspec [] p = none := rfl

theorem vspec_cons (o : S3Object) (l : List S3Object) (p : String) :
    vspec (o :: l) p = vcombine (vsingle o p) (vspec l p) := by
  unfold vspec vsingle
  rw [recordsAt_cons]
  by_cases h : prefixOfKey o.Key = p
  · rw [if_pos h, if_pos h]
    by_cases h2 : recordsAt l p = []
    · rw [if_neg (by simp), if_pos h2, h2, vcombine_none_right]
      simp only [Option.some.injEq, Prod.mk.injEq]
      constructor
      · simp
      · funext c
        exact globalSpec_singleton o c
    · rw [if_neg (by simp), if_neg h2]
      show some _ = vcombine (some _) (some _)
      simp only [vcombine, Option.some.injEq, Prod.mk.injEq]
      constructor
      · simp
      · funext c
        exact globalSpec_cons o (recordsAt l p) c
  · rw [if_neg h, if_neg h, vcombine_none_left]

theorem vspec_append (l1 l2 : List S3Object) (p : String) :
    vspec (l1 ++ l2) p = vcombine (vspec l1 p) (vspec l2 p) := by
  induction l1 with
  | nil => rw [List.nil_append, vspec_nil, vcombine_none_left]
  | cons o t ih =>
      rw [List.cons_append, vspec_cons, ih, vspec_cons, vcombine_assoc]

theorem vspec_perm {l1 l2 : List S3Object} (h : l1.Perm l2) (p : String) :
    vspec l1 p = vspec l2 p := by
  have hr : (recordsAt l1 p).Perm (recordsAt l2 p) := h.filter _
  unfold vspec
  by_cases h1 : recordsAt l1 p = []
  · have h2 : recordsAt l2 p = [] := by
      rw [h1] at hr
      exact hr.symm.eq_nil
    rw [if_pos h1, if_pos h2]
  · have h2 : ¬ recordsAt l2 p = [] := by
      intro hh
      rw [hh] at hr
      exact h1 hr.eq_nil
    rw [if_neg h1, if_neg h2]
    simp only [Option.some.injEq, Prod.mk.injEq]
    constructor
    · exact (hr.map S3Object.Size).sum_eq
    · funext c
      exact globalSpec_perm hr c

theorem cssdStep_pd_view (st : Prod Dict PrefixDict) (o : S3Object) (x : String) :
    viewPD (pdFind (cssdStep st o).2 x)
      = vcombine (viewPD (pdFind st.2 x)) (vsingle o x) := by
  rw [cssdStep_eq]
  show viewPD (pdFind (pdUpdate st.2 (prefixOfKey o.Key) _) x) = _
  rw [pdFind_pdUpdate]
  by_cases h : x = prefixOfKey o.Key
  · subst h
    rw [if_pos rfl]
    unfold vsingle
    rw [if_pos rfl]
    cases hf : pdFind st.2 (prefixOfKey o.Key) with
    | some e =>
        show some _ = vcombine (some _) (some _)
        simp only [vcombine, Option.getD_some, viewPD, Option.some.injEq, Prod.mk.injEq]
        refine ⟨by simp, ?_⟩
        funext c
        rw [dictFind_dictIncr, gsingle_eq]
    | none =>
        show some _ = vcombine none (some _)
        rw [vcombine_none_left]
        simp only [Option.getD_none, viewPD, Option.some.injEq, Prod.mk.injEq]
        constructor
        · show pdDefault.TotalSize + o.Size = o.Size
          simp [pdDefault]
        · funext c
          show dictFind (dictIncr pdDefault.StorageClass (storageClassOf o) o.Size) c
              = gsingle o c
          rw [dictFind_dictIncr, gsingle_eq]
          rfl
  · rw [if_neg h]
    unfold vsingle
    rw [if_neg (fun hh => h hh.symm), vcombine_none_right]

theorem cssd_foldl_view (objects : List S3Object) :
    ∀ (st : Prod Dict PrefixDict) (x : String),
    viewPD (pdFind ((objects.foldl cssdStep st).2) x)
      = vcombine (viewPD (pdFind st.2 x)) (vspec objects x) := by
  induction objects with
  | nil =>
      intro st x
      rw [List.foldl_nil, vspec_nil, vcombine_none_right]
  | cons o rest ih =>
      intro st x
      rw [List.foldl_cons, ih, cssdStep_pd_view, vspec_cons, vcombine_assoc]

theorem cssd_pd_view (l : List S3Object) (x : String) :
    viewPD (pdFind (calculate_storage_class_data l).2 x) = vspec l x := by
  unfold calculate_storage_class_data
  rw [cssd_foldl_view l ([], []) x]
  rfl

theorem mergeClasses_nil (a : PrefixDict) (p : String) : mergeClasses a p [] = a := rfl

theorem mergeClasses_cons (a : PrefixDict) (p : String) (c : String) (v : Int) (rest : Dict) :
    mergeClasses a p ((c, v) :: rest)
      = mergeClasses
          (pdUpdate a p (fun d => { d with StorageClass := dictIncr d.StorageClass c v }))
          p rest := rfl

theorem pdFind_mergeClasses : ∀ (cs : Dict) (a : PrefixDict) (p : String) (e0 : PrefixDetail),
    pdFind a p = some e0 → ∀ x,
    pdFind (mergeClasses a p cs) x
      = if x = p
        then some { TotalSize := e0.TotalSize, StorageClass := mergeGlobal e0.StorageClass cs }
        else pdFind a x
  | [], a, p, e0 => by
      intro h x
      rw [mergeClasses_nil, mergeGlobal_nil]
      by_cases hx : x = p
      · rw [if_pos hx, hx, h]
      · rw [if_neg hx]
  | (c, v) :: rest, a, p, e0 => by
      intro h x
      rw [mergeClasses_cons]
      have h1 : pdFind
          (pdUpdate a p (fun d => { d with StorageClass := dictIncr d.StorageClass c v })) p
          = some { TotalSize := e0.TotalSize,
                   StorageClass := dictIncr e0.StorageClass c v } := by
        rw [pdFind_pdUpdate, if_pos rfl, h]
        rfl
      rw [pdFind_mergeClasses rest _ p _ h1 x]
      by_cases hx : x = p
      · rw [if_pos hx, if_pos hx, mergeGlobal_cons]
      · rw [if_neg hx, if_neg hx, pdFind_pdUpdate, if_neg hx]

theorem mergePrefixes_nil (acc : PrefixDict) : mergePrefixes acc [] = acc := rfl

theorem mergePrefixes_cons (acc : PrefixDict) (k : String) (e : PrefixDetail)
    (rest : PrefixDict) :
    mergePrefixes acc ((k, e) :: rest)
      = mergePrefixes
          (mergeClasses
            (pdUpdate acc k (fun d => { d with TotalSize := d.TotalSize + e.TotalSize }))
            k e.StorageClass)
          rest := rfl

theorem pdFind_mergePrefixes : ∀ (res : PrefixDict) (acc : PrefixDict) (x : String),
    (pdKeys res).Nodup → (∀ e ∈ res, (dictKeys e.2.StorageClass).Nodup) →
    viewPD (pdFind (mergePrefixes acc res) x)
      = vcombine (viewPD (pdFind acc x)) (viewPD (pdFind res x))
  | [], acc, x => by
      intro _ _
      rw [mergePrefixes_nil]
      show viewPD (pdFind acc x) = vcombine (viewPD (pdFind acc x)) (viewPD none)
      rw [viewPD_none, vcombine_none_right]
  | (k, e) :: rest, acc, x => by
      intro hnd hinner
      rw [pdKeys_cons] at hnd
      have hk : k ∉ pdKeys rest := (List.nodup_cons.mp hnd).1
      have hnd2 : (pdKeys rest).Nodup := (List.nodup_cons.mp hnd).2
      have hinner2 : ∀ e' ∈ rest, (dictKeys e'.2.StorageClass).Nodup :=
        fun e' he' => hinner e' (List.mem_cons_of_mem _ he')
      have hSC : (dictKeys e.StorageClass).Nodup :=
        hinner (k, e) (List.mem_cons_self _ _)
      rw [mergePrefixes_cons]
      have ha1 : pdFind
          (pdUpdate acc k (fun d => { d with TotalSize := d.TotalSize + e.TotalSize })) k
          = some { TotalSize := ((pdFind acc k).getD pdDefault).TotalSize + e.TotalSize,
                   StorageClass := ((pdFind acc k).getD pdDefault).StorageClass } := by
        rw [pdFind_pdUpdate, if_pos rfl]
      rw [pdFind_mergePrefixes rest _ x hnd2 hinner2,
        pdFind_mergeClasses e.StorageClass _ k _ ha1 x]
      by_cases hx : x = k
      · subst hx
        have hrest : pdFind rest x = none := pdFind_eq_none_of_not_mem rest x hk
        rw [if_pos rfl, hrest, viewPD_none, vcombine_none_right, pdFind_cons, if_pos rfl]
        cases hf : pdFind acc x with
        | some a0 =>
            show some _ = vcombine (some _) (some _)
            simp only [vcombine, viewPD, Option.getD_some, Option.some.injEq, Prod.mk.injEq]
            refine ⟨by simp, ?_⟩
            funext c
            exact dictFind_mergeGlobal e.StorageClass _ c hSC
        | none =>
            show some _ = vcombine none (some _)
            rw [vcombine_none_left]
            simp only [viewPD, Option.getD_none, Option.some.injEq, Prod.mk.injEq]
            constructor
            · show pdDefault.TotalSize + e.TotalSize = e.TotalSize
              simp [pdDefault]
            · funext c
              rw [dictFind_mergeGlobal e.StorageClass pdDefault.StorageClass c hSC]
              rfl
      · rw [if_neg hx, pdFind_pdUpdate, if_neg hx, pdFind_cons,
          if_neg (fun hh => hx hh.symm)]

/-! ### Nodup invariants of the aggregator output -/

theorem cssd_foldl_nodup (objects : List S3Object) :
    ∀ st : Prod Dict PrefixDict,
    (dictKeys st.1).Nodup → (pdKeys st.2).Nodup →
    (∀ e ∈ st.2, (dictKeys e.2.StorageClass).Nodup) →
    ((dictKeys (objects.foldl cssdStep st).1).Nodup
      ∧ (pdKeys (objects.foldl cssdStep st).2).Nodup
      ∧ ∀ e ∈ (objects.foldl cssdStep st).2, (dictKeys e.2.StorageClass).Nodup) := by
  induction objects with
  | nil =>
      intro st h1 h2 h3
      exact ⟨h1, h2, h3⟩
  | cons o rest ih =>
      intro st h1 h2 h3
      rw [List.foldl_cons]
      apply ih
      · rw [cssdStep_eq]
        exact dictKeys_dictIncr_nodup st.1 _ _ h1
      · rw [cssdStep_eq]
        exact pdKeys_pdUpdate_nodup st.2 _ _ h2
      · rw [cssdStep_eq]
        apply pdUpdate_forall st.2 (prefixOfKey o.Key) _
          (fun d => (dictKeys d.StorageClass).Nodup) h3
        · intro y hy
          exact dictKeys_dictIncr_nodup y.StorageClass _ _ hy
        · exact dictKeys_dictIncr_nodup pdDefault.StorageClass _ _ (by simp [pdDefault, dictKeys])

theorem cssd_nodup (l : List S3Object) :
    (dictKeys (calculate_storage_class_data l).1).Nodup
    ∧ (pdKeys (calculate_storage_class_data l).2).Nodup
    ∧ ∀ e ∈ (calculate_storage_class_data l).2, (dictKeys e.2.StorageClass).Nodup := by
  unfold calculate_storage_class_data
  apply cssd_foldl_nodup
  · simp [dictKeys]
  · simp [pdKeys]
  · intro e he
    simp at he

/-! ### mainAccumulate characterisation -/

theorem mergeStep_eq (acc : Prod Dict PrefixDict) (batch : List S3Object) :
    mergeStep acc batch
      = (mergeGlobal acc.1 (calculate_storage_class_data batch).1,
         mergePrefixes acc.2 (calculate_storage_class_data batch).2) := rfl

theorem mainAcc_foldl_find (batches : List (List S3Object)) :
    ∀ (acc : Prod Dict PrefixDict) (c : String),
    dictFind ((batches.foldl mergeStep acc).1) c
      = omerge (dictFind acc.1 c) (globalSpec batches.flatten c) := by
  induction batches with
  | nil =>
      intro acc c
      rw [List.foldl_nil]
      show dictFind acc.1 c = _
      rw [show ([] : List (List S3Object)).flatten = [] from rfl, globalSpec_nil,
        omerge_none_right]
  | cons b rest ih =>
      intro acc c
      rw [List.foldl_cons, ih, mergeStep_eq]
      show omerge (dictFind (mergeGlobal acc.1 (calculate_storage_class_data b).1) c) _ = _
      rw [dictFind_mergeGlobal (calculate_storage_class_data b).1 acc.1 c (cssd_nodup b).1,
        cssd_global_find, List.flatten_cons, globalSpec_append, omerge_assoc]

theorem mainAcc_foldl_view (batches : List (List S3Object)) :
    ∀ (acc : Prod Dict PrefixDict) (x : String),
    viewPD (pdFind ((batches.foldl mergeStep acc).2) x)
      = vcombine (viewPD (pdFind acc.2 x)) (vspec batches.flatten x) := by
  induction batches with
  | nil =>
      intro acc x
      rw [List.foldl_nil]
      show viewPD (pdFind acc.2 x) = _
      rw [show ([] : List (List S3Object)).flatten = [] from rfl, vspec_nil,
        vcombine_none_right]
  | cons b rest ih =>
      intro acc x
      rw [List.foldl_cons, ih, mergeStep_eq]
      show vcombine
          (viewPD (pdFind (mergePrefixes acc.2 (calculate_storage_class_data b).2) x)) _ = _
      rw [pdFind_mergePrefixes (calculate_storage_class_data b).2 acc.2 x
            (cssd_nodup b).2.1 (cssd_nodup b).2.2,
        cssd_pd_view, List.flatten_cons, vspec_append, vcombine_assoc]

theorem mainAcc_global_find (batches : List (List S3Object)) (c : String) :
    dictFind (mainAccumulate batches).1 c = globalSpec batches.flatten c := by
  unfold mainAccumulate
  rw [mainAcc_foldl_find batches ([], []) c]
  show omerge none _ = _
  rw [omerge_none_left]

theorem mainAcc_pd_view (batches : List (List S3Object)) (x : String) :
    viewPD (pdFind (mainAccumulate batches).2 x) = vspec batches.flatten x := by
  unfold mainAccumulate
  rw [mainAcc_foldl_view batches ([], []) x]
  show vcombine (viewPD none) _ = _
  rw [viewPD_none, vcombine_none_left]

/-- Claim C2: for every multiset of records, running the Aggregator per
batch and merging as `main` does produces, for every storage class and
every prefix, exactly the same global counters and extensionally the same
per-prefix aggregates as processing all records in a single batch in any
order. -/
theorem aggregator_batching_independent (batches : List (List S3Object))
    (l : List S3Object) (h : batches.flatten.Perm l) :
    (∀ c, dictFind (mainAccumulate batches).1 c
        = dictFind (calculate_storage_class_data l).1 c)
    ∧ (∀ p, viewPD (pdFind (mainAccumulate batches).2 p)
        = viewPD (pdFind (calculate_storage_class_data l).2 p)) := by
  constructor
  · intro c
    rw [cssd_global_find, mainAcc_global_find, globalSpec_perm h c]
  · intro p
    rw [cssd_pd_view, mainAcc_pd_view, vspec_perm h p]

theorem aggregator_invariants_witness :
    (("a/", ({ TotalSize := 1024, StorageClass := [("STANDARD", 100), ("GLACIER", 924)] } : PrefixDetail))
        ∈ (calculate_storage_class_data demoObjects).2)
    ∧ (1024 : Int) = dictSum [("STANDARD", 100), ("GLACIER", 924)] :=
  ⟨by decide,
    aggregator_invariants demoObjects |>.1
      ("a/", { TotalSize := 1024, StorageClass := [("STANDARD", 100), ("GLACIER", 924)] })
      (by decide)⟩



theorem aggregator_batching_independent_witness :
    demoBatches.flatten.Perm demoShuffled
    ∧ ((∀ c, dictFind (mainAccumulate demoBatches).1 c
          = dictFind (calculate_storage_class_data demoShuffled).1 c)
       ∧ (∀ p, viewPD (pdFind (mainAccumulate demoBatches).2 p)
          = viewPD (pdFind (calculate_storage_class_data demoShuffled).2 p))) :=
  ⟨by decide, aggregator_batching_independent demoBatches demoShuffled (by decide)⟩




/-! qdict lemmas -/

theorem qdictFind_cons (k : String) (v : ℚ) (rest : QDict) (c : String) :
    qdictFind ((k, v) :: rest) c = if k = c then some v else qdictFind rest c := rfl

theorem qdictSet_cons (k' : String) (v' : ℚ) (rest : QDict) (k : String) (v : ℚ) :
    qdictSet ((k', v') :: rest) k v
      = if k' = k then (k', v) :: rest else (k', v') :: qdictSet rest k v := rfl

theorem qdictFind_qdictSet_self (d : QDict) (k : String) (v : ℚ) :
    qdictFind (qdictSet d k v) k = some v := by
  induction d with
  | nil =>
      show qdictFind [(k, v)] k = some v
      rw [qdictFind_cons, if_pos rfl]
  | cons kv rest ih =>
      obtain ⟨k', v'⟩ := kv
      rw [qdictSet_cons]
      by_cases h : k' = k
      · rw [if_pos h, qdictFind_cons, if_pos h]
      · rw [if_neg h, qdictFind_cons, if_neg h, ih]

theorem qdictFind_qdictSet_ne (d : QDict) (k c : String) (v : ℚ) (h : ¬ c = k) :
    qdictFind (qdictSet d k v) c = qdictFind d c := by
  induction d with
  | nil =>
      show qdictFind [(k, v)] c = none
      rw [qdictFind_cons, if_neg (fun hh => h hh.symm)]
      rfl
  | cons kv rest ih =>
      obtain ⟨k', v'⟩ := kv
      rw [qdictSet_cons]
      by_cases h2 : k' = k
      · rw [if_pos h2, qdictFind_cons, qdictFind_cons]
        by_cases h3 : k' = c
        · exact absurd (h3.symm.trans h2) h
        · rw [if_neg h3, if_neg h3]
      · rw [if_neg h2, qdictFind_cons, qdictFind_cons]
        by_cases h3 : k' = c
        · rw [if_pos h3, if_pos h3]
        · rw [if_neg h3, if_neg h3, ih]

theorem costStep_eq (out : QDict) (kv : Prod String Int) :
    costStep out kv
      = qdictSet out kv.1 (round2 (priceOf kv.1 * ((kv.2 : ℚ) / 1024 ^ 3))) := rfl

theorem cost_foldl_find : ∀ (d : Dict) (out : QDict) (c : String),
    (dictKeys d).Nodup →
    qdictFind (d.foldl costStep out) c
      = (match dictFind d c with
          | some v => some (round2 (priceOf c * ((v : ℚ) / 1024 ^ 3)))
          | none => qdictFind out c)
  | [], out, c => by
      intro _
      rfl
  | (k, v) :: rest, out, c => by
      intro hnd
      rw [show dictKeys ((k, v) :: rest) = k :: dictKeys rest from rfl] at hnd
      have hk : k ∉ dictKeys rest := (List.nodup_cons.mp hnd).1
      have hnd2 : (dictKeys rest).Nodup := (List.nodup_cons.mp hnd).2
      rw [List.foldl_cons, cost_foldl_find rest _ c hnd2,
        show dictFind ((k, v) :: rest) c = if k = c then some v else dictFind rest c from rfl]
      by_cases h : k = c
      · subst h
        rw [if_pos rfl]
        rw [dictFind_eq_none_of_not_mem rest k hk]
        show qdictFind (costStep out (k, v)) k = some _
        rw [costStep_eq, qdictFind_qdictSet_self]
      · rw [if_neg h]
        cases hr : dictFind rest c with
        | some w => rfl
        | none =>
            show qdictFind (costStep out (k, v)) c = qdictFind out c
            rw [costStep_eq, qdictFind_qdictSet_ne out k c _ (fun hh => h hh.symm)]

/-! rounding lemmas -/

theorem roundHalfEven_eq_zero {q : ℚ} (h0 : 0 ≤ q) (h1 : q < 1/2) :
    roundHalfEven q = 0 := by
  unfold roundHalfEven
  have hf : ⌊q⌋ = 0 := by
    rw [Int.floor_eq_iff]
    constructor
    · exact_mod_cast h0
    · push_cast
      linarith
  rw [hf]
  rw [if_pos]
  push_cast
  linarith

theorem round2_eq_zero {q : ℚ} (h0 : 0 ≤ q) (h1 : q * 100 < 1/2) :
    round2 q = 0 := by
  unfold round2
  rw [roundHalfEven_eq_zero (by positivity) h1]
  norm_num

/-- Claim C6: `calculate_cost` is total — for every dict (arbitrary class
names, non-negative sizes) each class is priced at
`round2(price_per_GB * bytes / 2^30)`, and classes absent from the pricing
table price at 0 rather than raising. -/
theorem calculate_cost_total :
    (∀ (d : Dict), (dictKeys d).Nodup → (∀ e ∈ d, 0 ≤ e.2) → ∀ c,
      qdictFind (calculate_cost d) c
        = Option.map (fun v => round2 (priceOf c * ((v : ℚ) / 1024 ^ 3))) (dictFind d c))
    ∧ (∀ c, qdictFind STORAGE_CLASS_PRICING c = none →
        ∀ v : Int, round2 (priceOf c * ((v : ℚ) / 1024 ^ 3)) = 0) := by
  constructor
  · intro d hnd _ c
    unfold calculate_cost
    rw [cost_foldl_find d [] c hnd]
    cases dictFind d c <;> rfl
  · intro c hc v
    unfold priceOf
    rw [hc]
    show round2 ((none : Option ℚ).getD 0 * _) = 0
    rw [Option.getD_none, zero_mul]
    exact round2_eq_zero le_rfl (by norm_num)

theorem calculate_cost_total_witness :
    ((dictKeys [("FOO", (5 : Int))]).Nodup
      ∧ (∀ e ∈ ([("FOO", (5 : Int))] : Dict), 0 ≤ e.2)
      ∧ qdictFind (calculate_cost [("FOO", 5)]) "FOO"
          = Option.map (fun v => round2 (priceOf "FOO" * ((v : ℚ) / 1024 ^ 3)))
              (dictFind [("FOO", (5 : Int))] "FOO"))
    ∧ (qdictFind STORAGE_CLASS_PRICING "FOO" = none
      ∧ round2 (priceOf "FOO" * (((5 : Int) : ℚ) / 1024 ^ 3)) = 0) :=
  ⟨⟨by decide, by decide,
      calculate_cost_total.1 [("FOO", 5)] (by decide) (by decide) "FOO"⟩,
    ⟨by decide, calculate_cost_total.2 "FOO" (by decide) 5⟩⟩

/-- Claim C3: the end-to-end scenario — the three demo objects aggregate to
global {STANDARD: 1124, GLACIER: 924}, prefix "a/" {STANDARD: 100,
GLACIER: 924} total 1024, prefix "b/" {STANDARD: 1024} total 1024, and the
GLACIER bytes of "a/" cost `round2(0.004 * 924/2^30) = 0.0`. -/
theorem end_to_end_demo :
    calculate_storage_class_data demoObjects
      = ([("STANDARD", 1124), ("GLACIER", 924)],
         [("a/", { TotalSize := 1024,
                   StorageClass := [("STANDARD", 100), ("GLACIER", 924)] }),
          ("b/", { TotalSize := 1024, StorageClass := [("STANDARD", 1024)] })])
    ∧ qdictFind (calculate_cost [("STANDARD", 100), ("GLACIER", 924)]) "GLACIER"
        = some (round2 ((4/1000) * ((924 : ℚ) / 1024 ^ 3)))
    ∧ round2 ((4/1000) * ((924 : ℚ) / 1024 ^ 3)) = 0 := by
  refine ⟨by decide, ?_, ?_⟩
  · unfold calculate_cost
    rw [cost_foldl_find _ [] "GLACIER" (by decide)]
    have hf : dictFind [("STANDARD", (100 : Int)), ("GLACIER", 924)] "GLACIER"
        = some 924 := by decide
    rw [hf]
    have hp : priceOf "GLACIER" = 4/1000 := by
      unfold priceOf STORAGE_CLASS_PRICING
      rw [qdictFind_cons, if_neg (by decide), qdictFind_cons, if_neg (by decide),
        qdictFind_cons, if_neg (by decide), qdictFind_cons, if_neg (by decide),
        qdictFind_cons, if_pos (by decide)]
      norm_num
    rw [hp]
    norm_num
  · exact round2_eq_zero (by positivity) (by norm_num)


end S3Script
